import Mathlib

/-!
Shallow embedding of `src/audio_preprocessing.py` (class `AudioPreprocessor`)
and proofs of the specification's claims about it.

Waveforms are modelled as `List ℚ` (one amplitude sample per element) and
spectrograms as `List (List ℚ)` (rows of a two-dimensional array).  External
library calls (`librosa.load`, `librosa.stft` composed with
`librosa.amplitude_to_db`) are abstracted as function parameters: no claim
depends on the values they produce, only on how the pipeline code routes
their results.  Methods that would raise a Python exception when a needed
field is still `None` (or when numpy raises on an empty array) return
`none`.
-/

set_option autoImplicit false

/-- Python `int()` applied to a (real-valued) number: truncation toward zero.
Used by `pad` for `int(self.sample_rate*duration)`. -/
def pyInt (q : ℚ) : ℤ :=
  if 0 ≤ q then ⌊q⌋ else ⌈q⌉

/-- Python slice `s[:n]` for an integer `n`: the first `n` elements when
`0 ≤ n`, and all but the last `|n|` elements when `n < 0`. -/
def pySliceTo (s : List ℚ) (n : ℤ) : List ℚ :=
  if 0 ≤ n then s.take n.toNat else s.take (s.length - n.natAbs)

/-- Numpy `np.pad(signal, (k, 0))`: prepend `k` zeros. -/
def npPadLeft (s : List ℚ) (k : ℕ) : List ℚ :=
  List.replicate k 0 ++ s

/-- Minimum of a list as computed by numpy `.min()`; `none` on the empty
list, where numpy raises. -/
def listMin : List ℚ → Option ℚ
  | [] => none
  | a :: t =>
    match listMin t with
    | none => some a
    | some b => some (min a b)

/-- Maximum of a list as computed by numpy `.max()`; `none` on the empty
list, where numpy raises. -/
def listMax : List ℚ → Option ℚ
  | [] => none
  | a :: t =>
    match listMax t with
    | none => some a
    | some b => some (max a b)

/-- Flattening of a two-dimensional array into the list of its elements,
row by row (numpy reductions such as `.min()`/`.max()` range over all
elements). -/
def flat2 : List (List ℚ) → List ℚ
  | [] => []
  | r :: t => r ++ flat2 t

/-- Effectful map over a list in the `Option` monad, mirroring a Python
`for` loop that appends one result per element and propagates the first
exception. -/
def optionMapM {α β : Type} (f : α → Option β) : List α → Option (List β)
  | [] => some []
  | a :: t =>
    match f a, optionMapM f t with
    | some b, some bs => some (b :: bs)
    | _, _ => none

/-- State of one `AudioPreprocessor` instance: the fields set to `None` in
`__init__`. -/
structure AudioPreprocessor where
  signals : Option (List (List ℚ))
  spectrograms : Option (List (List (List ℚ)))
  original_min_max : Option (List (ℚ × ℚ))
  sample_rate : Option ℚ
  filenames : Option (List String)
  signal_length : Option ℤ
  frame_size : Option ℕ
  hop_length : Option ℕ
deriving DecidableEq

/-- The freshly constructed instance: every field is `None`. -/
def AudioPreprocessor.init : AudioPreprocessor :=
  { signals := none, spectrograms := none, original_min_max := none,
    sample_rate := none, filenames := none, signal_length := none,
    frame_size := none, hop_length := none }

/-- The string of one dot, as in Python `file.startswith('.')`. -/
def dotStr : String := "."

/-- Hidden-file test from `load`: Python `file.startswith('.')`. -/
def isHidden (file : String) : Bool :=
  String.startsWith file dotStr

/-- Method `load(path, sample_rate)`.  The directory listing
(`os.listdir(path)`) is passed in as `entries`, and the library decoder
`librosa.load(..., sr=sample_rate)[0]` as `decode`; the method keeps the
non-hidden names, decodes each, and records the sample rate. -/
def AudioPreprocessor.load (s : AudioPreprocessor) (entries : List String)
    (decode : String → List ℚ) (sample_rate : ℚ) : AudioPreprocessor :=
  let fns := entries.filter (fun file => !(isHidden file))
  { s with sample_rate := some sample_rate,
           filenames := some fns,
           signals := some (fns.map decode) }

/-- Per-signal body of the `pad` loop: left-pad with zeros up to
`signal_length` when shorter, else Python-slice to the first
`signal_length` samples. -/
def padSignal (signal_length : ℤ) (signal : List ℚ) : List ℚ :=
  if (signal.length : ℤ) < signal_length then
    npPadLeft signal (signal_length - (signal.length : ℤ)).toNat
  else
    pySliceTo signal signal_length

/-- Method `pad(duration)`: sets `signal_length = int(sample_rate*duration)`
and rebuilds `signals` by padding or trimming each one.  `none` when
`sample_rate` or `signals` is still `None` (Python would raise). -/
def AudioPreprocessor.pad (s : AudioPreprocessor) (duration : ℚ) :
    Option AudioPreprocessor := do
  let sr ← s.sample_rate
  let sigs ← s.signals
  let L := pyInt (sr * duration)
  pure { s with signal_length := some L,
                signals := some (sigs.map (padSignal L)) }

/-- Method `log_spectrogram(frame_size, hop_length)`.  The library composite
`librosa.amplitude_to_db(np.abs(librosa.stft(signal, n_fft=frame_size,
hop_length=hop_length)[:-1]))` is abstracted as the parameter `stftDb`;
the method applies it to each signal and records the two parameters.
`none` when `signals` is still `None`. -/
def AudioPreprocessor.log_spectrogram (s : AudioPreprocessor)
    (stftDb : ℕ → ℕ → List ℚ → List (List ℚ))
    (frame_size hop_length : ℕ) : Option AudioPreprocessor := do
  let sigs ← s.signals
  pure { s with frame_size := some frame_size,
                hop_length := some hop_length,
                spectrograms := some (sigs.map (stftDb frame_size hop_length)) }

/-- Per-spectrogram body of the `normalize` loop: compute the spectrogram's
min and max, and rescale every element to `(value - min) / (max - min)`
with no guard on the denominator.  Returns the stored `(min, max)` pair and
the rescaled spectrogram; `none` when the spectrogram is empty (numpy
`.min()` raises there). -/
def normalizeSpec (sp : List (List ℚ)) :
    Option ((ℚ × ℚ) × List (List ℚ)) := do
  let mn ← listMin (flat2 sp)
  let mx ← listMax (flat2 sp)
  pure ((mn, mx), sp.map (fun row => row.map (fun v => (v - mn) / (mx - mn))))

/-- Method `normalize()`: rescales each spectrogram independently and stores
the parallel list of `(min, max)` pairs.  `none` when `spectrograms` is
still `None`. -/
def AudioPreprocessor.normalize (s : AudioPreprocessor) :
    Option AudioPreprocessor := do
  let specs ← s.spectrograms
  let results ← optionMapM normalizeSpec specs
  pure { s with original_min_max := some (results.map Prod.fst),
                spectrograms := some (results.map Prod.snd) }

/-- Path separator used by `os.path.join` on POSIX. -/
def slashStr : String := "/"

/-- Model of `os.path.join(path, file)` for relative `file`. -/
def pathJoin (a b : String) : String := a ++ slashStr ++ b

/-- File names written by `save`. -/
def signalsFileName : String := "signals.npy"

/-- File name of the spectrogram array written by `save`. -/
def spectrogramsFileName : String := "spectrograms.npy"

/-- File name of the min-max array written by `save`. -/
def minMaxFileName : String := "original_min_max.npy"

/-- The filesystem, modelled as the list of existing paths (directories and
files alike). -/
abbrev FileSys : Type := List String

/-- Model of `os.mkdir(path)`: raises (error, filesystem unchanged) when
the path already exists, otherwise creates it.  The error value carries the
filesystem state at the moment the exception propagates. -/
def osMkdir (fs : FileSys) (path : String) : Except FileSys FileSys :=
  if path ∈ fs then Except.error fs else Except.ok (path :: fs)

/-- Model of `np.save(path, arr)`: creates (or overwrites) the file at
`path`. -/
def npSave (fs : FileSys) (path : String) : FileSys :=
  path :: fs

/-- Method `save(path)`: `os.mkdir(path)` first, then one `np.save` per
field that is not `None`.  Returns the final filesystem, or the untouched
filesystem inside `Except.error` when `mkdir` raises. -/
def AudioPreprocessor.save (s : AudioPreprocessor) (path : String)
    (fs : FileSys) : Except FileSys FileSys := do
  let fs1 ← osMkdir fs path
  let fs2 := if s.signals.isSome then npSave fs1 (pathJoin path signalsFileName) else fs1
  let fs3 := if s.spectrograms.isSome then npSave fs2 (pathJoin path spectrogramsFileName) else fs2
  let fs4 := if s.original_min_max.isSome then npSave fs3 (pathJoin path minMaxFileName) else fs3
  pure fs4

/-! ### Helper lemmas -/

/-- Indexing a mapped list with a default, at an in-bounds index. -/
theorem getD_map_of_lt {α β : Type} (f : α → β) (l : List α) (i : ℕ)
    (d : α) (e : β) (h : i < l.length) :
    (l.map f).getD i e = f (l.getD i d) := by
  rw [List.getD_eq_getElem?_getD, List.getD_eq_getElem?_getD, List.getElem?_map,
      List.getElem?_eq_getElem h]
  rfl

/-- Unfolding equation of `pad` when `sample_rate` and `signals` are set. -/
theorem pad_eq (s : AudioPreprocessor) (sr d : ℚ) (sigs : List (List ℚ))
    (hsr : s.sample_rate = some sr) (hsig : s.signals = some sigs) :
    s.pad d = some { s with signal_length := some (pyInt (sr * d)),
                            signals := some (sigs.map (padSignal (pyInt (sr * d)))) } := by
  simp [AudioPreprocessor.pad, hsr, hsig]

/-- Every signal coming out of the `pad` loop has exactly the target length
(as long as the target is nonnegative). -/
theorem padSignal_length (L : ℤ) (w : List ℚ) (h : 0 ≤ L) :
    ((padSignal L w).length : ℤ) = L := by
  simp only [padSignal, npPadLeft, pySliceTo]
  split
  · simp only [List.length_append, List.length_replicate]
    omega
  · simp only [if_pos h, List.length_take]
    omega

/-! ### Claims about `pad` -/

/-- C1: for every waveform strictly shorter than the target sample count,
the output of `pad()` for that waveform has the target length, its trailing
`original_length` positions are the original samples unchanged and in
order, and all leading positions are zero. -/
theorem pad_pads_short_signals_left (s s' : AudioPreprocessor) (sr d : ℚ)
    (sigs : List (List ℚ)) (i : ℕ)
    (hsr : s.sample_rate = some sr) (hsig : s.signals = some sigs)
    (hpad : s.pad d = some s') (hi : i < sigs.length)
    (hlt : ((sigs.getD i []).length : ℤ) < pyInt (sr * d)) :
    ∃ outs, s'.signals = some outs ∧
      (((outs.getD i []).length : ℤ) = pyInt (sr * d) ∧
       (outs.getD i []).drop ((outs.getD i []).length - (sigs.getD i []).length) =
         sigs.getD i [] ∧
       (outs.getD i []).take ((outs.getD i []).length - (sigs.getD i []).length) =
         List.replicate ((outs.getD i []).length - (sigs.getD i []).length) 0) := by
  rw [pad_eq s sr d sigs hsr hsig] at hpad
  cases hpad
  refine ⟨sigs.map (padSignal (pyInt (sr * d))), rfl, ?_⟩
  rw [getD_map_of_lt (padSignal (pyInt (sr * d))) sigs i [] [] hi]
  have hL0 : 0 ≤ pyInt (sr * d) := le_trans (Int.ofNat_nonneg _) (le_of_lt hlt)
  refine ⟨padSignal_length _ _ hL0, ?_⟩
  simp only [padSignal, if_pos hlt, npPadLeft]
  have h1 : (List.replicate (pyInt (sr * d) - ((sigs.getD i []).length : ℤ)).toNat (0:ℚ) ++
      sigs.getD i []).length - (sigs.getD i []).length =
      (pyInt (sr * d) - ((sigs.getD i []).length : ℤ)).toNat := by
    simp [List.length_append, List.length_replicate]
  rw [h1]
  constructor
  · have h2 := List.drop_left
      (List.replicate (pyInt (sr * d) - ((sigs.getD i []).length : ℤ)).toNat (0:ℚ))
      (sigs.getD i [])
    rw [List.length_replicate] at h2
    exact h2
  · have h3 := List.take_left
      (List.replicate (pyInt (sr * d) - ((sigs.getD i []).length : ℤ)).toNat (0:ℚ))
      (sigs.getD i [])
    rw [List.length_replicate] at h3
    exact h3

/-- C2: for every waveform at least as long as the (nonnegative) target
sample count, the output of `pad()` for that waveform is exactly the first
`target` samples of the original. -/
theorem pad_truncates_long_signals (s s' : AudioPreprocessor) (sr d : ℚ)
    (sigs : List (List ℚ)) (i : ℕ)
    (hsr : s.sample_rate = some sr) (hsig : s.signals = some sigs)
    (hpad : s.pad d = some s') (hi : i < sigs.length)
    (h0 : 0 ≤ pyInt (sr * d))
    (hge : pyInt (sr * d) ≤ ((sigs.getD i []).length : ℤ)) :
    ∃ outs, s'.signals = some outs ∧
      outs.getD i [] = (sigs.getD i []).take (pyInt (sr * d)).toNat := by
  rw [pad_eq s sr d sigs hsr hsig] at hpad
  cases hpad
  refine ⟨sigs.map (padSignal (pyInt (sr * d))), rfl, ?_⟩
  rw [getD_map_of_lt (padSignal (pyInt (sr * d))) sigs i [] [] hi]
  simp only [padSignal, pySliceTo]
  rw [if_neg (by omega), if_pos h0]

/-- C3: after `pad(duration)` with the recorded sample rate, every waveform
in the batch has exactly `floor(duration * sample_rate)` samples, for every
non-empty batch and positive duration and sample rate. -/
theorem pad_uniform_length (s s' : AudioPreprocessor) (sr d : ℚ)
    (sigs : List (List ℚ))
    (hsr : s.sample_rate = some sr) (hsig : s.signals = some sigs)
    (hpad : s.pad d = some s')
    (hne : sigs ≠ []) (h1 : 0 < sr) (h2 : 0 < d) :
    ∃ outs, s'.signals = some outs ∧ outs ≠ [] ∧
      ∀ w ∈ outs, (w.length : ℤ) = ⌊d * sr⌋ := by
  rw [pad_eq s sr d sigs hsr hsig] at hpad
  cases hpad
  have hq : (0:ℚ) ≤ sr * d := le_of_lt (mul_pos h1 h2)
  have hL : pyInt (sr * d) = ⌊sr * d⌋ := by simp [pyInt, hq]
  have h0 : 0 ≤ pyInt (sr * d) := by
    rw [hL]
    exact Int.floor_nonneg.mpr hq
  refine ⟨sigs.map (padSignal (pyInt (sr * d))), rfl, ?_, ?_⟩
  · intro hmap
    exact hne (by simpa using hmap)
  · intro w hw
    obtain ⟨v, hv, rfl⟩ := List.mem_map.mp hw
    rw [padSignal_length _ _ h0, hL, mul_comm]

/-- C10: `pad()` mutates only the `signals` and `signal_length` fields; the
`spectrograms`, `original_min_max`, `sample_rate`, `filenames`,
`frame_size` and `hop_length` fields are unchanged by every call. -/
theorem pad_mutates_only_signals_and_length (s s' : AudioPreprocessor) (d : ℚ)
    (hpad : s.pad d = some s') :
    s'.spectrograms = s.spectrograms ∧ s'.original_min_max = s.original_min_max ∧
    s'.sample_rate = s.sample_rate ∧ s'.filenames = s.filenames ∧
    s'.frame_size = s.frame_size ∧ s'.hop_length = s.hop_length := by
  cases hsr : s.sample_rate with
  | none => simp [AudioPreprocessor.pad, hsr] at hpad
  | some sr =>
    cases hsig : s.signals with
    | none => simp [AudioPreprocessor.pad, hsr, hsig] at hpad
    | some sigs =>
      rw [pad_eq s sr d sigs hsr hsig] at hpad
      cases hpad
      exact ⟨rfl, rfl, hsr, rfl, rfl, rfl⟩

/-! ### Concrete pad run used by the checks -/

/-- Test state after `load`: sample rate 4, one short and one long signal. -/
def sA : AudioPreprocessor :=
  { AudioPreprocessor.init with
      sample_rate := some 4,
      signals := some [[1, 2], [1, 2, 3, 4, 5]] }

/-- The state produced by `sA.pad 1` (target length `int(4*1) = 4`). -/
def sApad : AudioPreprocessor :=
  { AudioPreprocessor.init with
      sample_rate := some 4,
      signal_length := some 4,
      signals := some [[0, 0, 1, 2], [1, 2, 3, 4]] }

/-- Evaluation of the concrete pad run. -/
theorem sA_pad_result : sA.pad 1 = some sApad := by
  with_unfolding_all decide

/-- Check of `pad_pads_short_signals_left` on the concrete run: the signal
`[1, 2]` of length 2 is left-padded to `[0, 0, 1, 2]`. -/
theorem pad_pads_short_signals_left_check :
    ∃ outs, sApad.signals = some outs ∧
      (((outs.getD 0 []).length : ℤ) = pyInt (4 * 1) ∧
       (outs.getD 0 []).drop ((outs.getD 0 []).length -
           (List.getD [[(1:ℚ), 2], [1, 2, 3, 4, 5]] 0 []).length) =
         List.getD [[(1:ℚ), 2], [1, 2, 3, 4, 5]] 0 [] ∧
       (outs.getD 0 []).take ((outs.getD 0 []).length -
           (List.getD [[(1:ℚ), 2], [1, 2, 3, 4, 5]] 0 []).length) =
         List.replicate ((outs.getD 0 []).length -
           (List.getD [[(1:ℚ), 2], [1, 2, 3, 4, 5]] 0 []).length) 0) :=
  pad_pads_short_signals_left sA sApad 4 1 [[1, 2], [1, 2, 3, 4, 5]] 0
    rfl rfl sA_pad_result (by decide) (by with_unfolding_all decide)

/-- Check of `pad_truncates_long_signals` on the concrete run: the signal
`[1, 2, 3, 4, 5]` of length 5 is cut to its first 4 samples. -/
theorem pad_truncates_long_signals_check :
    ∃ outs, sApad.signals = some outs ∧
      outs.getD 1 [] = (List.getD [[(1:ℚ), 2], [1, 2, 3, 4, 5]] 1 []).take
        (pyInt (4 * 1)).toNat :=
  pad_truncates_long_signals sA sApad 4 1 [[1, 2], [1, 2, 3, 4, 5]] 1
    rfl rfl sA_pad_result (by decide) (by with_unfolding_all decide)
    (by with_unfolding_all decide)

/-- Check of `pad_uniform_length` on the concrete run: both output signals
have length `floor(1 * 4) = 4`. -/
theorem pad_uniform_length_check :
    ∃ outs, sApad.signals = some outs ∧ outs ≠ [] ∧
      ∀ w ∈ outs, (w.length : ℤ) = ⌊(1:ℚ) * 4⌋ :=
  pad_uniform_length sA sApad 4 1 [[1, 2], [1, 2, 3, 4, 5]]
    rfl rfl sA_pad_result (by decide) (by decide) (by decide)

/-- Check of `pad_mutates_only_signals_and_length` on the concrete run. -/
theorem pad_mutates_only_signals_and_length_check :
    sApad.spectrograms = sA.spectrograms ∧
    sApad.original_min_max = sA.original_min_max ∧
    sApad.sample_rate = sA.sample_rate ∧
    sApad.filenames = sA.filenames ∧
    sApad.frame_size = sA.frame_size ∧
    sApad.hop_length = sA.hop_length :=
  pad_mutates_only_signals_and_length sA sApad 1 sA_pad_result

/-! ### Lemmas about `listMin`, `listMax` and `flat2` -/

/-- A list has a minimum exactly when it is nonempty. -/
theorem listMin_eq_none_iff (l : List ℚ) : listMin l = none ↔ l = [] := by
  cases l with
  | nil => simp [listMin]
  | cons a t =>
    simp only [listMin]
    cases listMin t <;> simp

/-- A list has a maximum exactly when it is nonempty. -/
theorem listMax_eq_none_iff (l : List ℚ) : listMax l = none ↔ l = [] := by
  cases l with
  | nil => simp [listMax]
  | cons a t =>
    simp only [listMax]
    cases listMax t <;> simp

/-- The computed minimum is an element of the list. -/
theorem listMin_mem (l : List ℚ) (m : ℚ) (h : listMin l = some m) : m ∈ l := by
  induction l generalizing m with
  | nil => simp [listMin] at h
  | cons a t ih =>
    simp only [listMin] at h
    cases ht : listMin t with
    | none =>
      rw [ht] at h
      cases h
      exact List.mem_cons_self a t
    | some b =>
      rw [ht] at h
      cases h
      rcases le_total a b with hab | hab
      · rw [min_eq_left hab]
        exact List.mem_cons_self a t
      · rw [min_eq_right hab]
        exact List.mem_cons_of_mem a (ih b ht)

/-- The computed maximum is an element of the list. -/
theorem listMax_mem (l : List ℚ) (m : ℚ) (h : listMax l = some m) : m ∈ l := by
  induction l generalizing m with
  | nil => simp [listMax] at h
  | cons a t ih =>
    simp only [listMax] at h
    cases ht : listMax t with
    | none =>
      rw [ht] at h
      cases h
      exact List.mem_cons_self a t
    | some b =>
      rw [ht] at h
      cases h
      rcases le_total a b with hab | hab
      · rw [max_eq_right hab]
        exact List.mem_cons_of_mem a (ih b ht)
      · rw [max_eq_left hab]
        exact List.mem_cons_self a t

/-- The computed minimum bounds every element from below. -/
theorem listMin_le (l : List ℚ) (m : ℚ) (h : listMin l = some m) :
    ∀ x ∈ l, m ≤ x := by
  induction l generalizing m with
  | nil => simp [listMin] at h
  | cons a t ih =>
    intro x hx
    simp only [listMin] at h
    cases ht : listMin t with
    | none =>
      rw [ht] at h
      cases h
      rcases List.mem_cons.mp hx with rfl | hxt
      · exact le_refl x
      · rw [listMin_eq_none_iff] at ht
        subst ht
        simp at hxt
    | some b =>
      rw [ht] at h
      cases h
      rcases List.mem_cons.mp hx with rfl | hxt
      · exact min_le_left _ _
      · exact le_trans (min_le_right _ _) (ih b ht _ hxt)

/-- The computed maximum bounds every element from above. -/
theorem listMax_ge (l : List ℚ) (m : ℚ) (h : listMax l = some m) :
    ∀ x ∈ l, x ≤ m := by
  induction l generalizing m with
  | nil => simp [listMax] at h
  | cons a t ih =>
    intro x hx
    simp only [listMax] at h
    cases ht : listMax t with
    | none =>
      rw [ht] at h
      cases h
      rcases List.mem_cons.mp hx with rfl | hxt
      · exact le_refl x
      · rw [listMax_eq_none_iff] at ht
        subst ht
        simp at hxt
    | some b =>
      rw [ht] at h
      cases h
      rcases List.mem_cons.mp hx with rfl | hxt
      · exact le_max_left _ _
      · exact le_trans (ih b ht _ hxt) (le_max_right _ _)

/-- Minimum commutes with a monotone map. -/
theorem listMin_map_mono (f : ℚ → ℚ) (hf : Monotone f) (l : List ℚ) :
    listMin (l.map f) = (listMin l).map f := by
  induction l with
  | nil => rfl
  | cons a t ih =>
    simp only [List.map_cons, listMin, ih]
    cases listMin t with
    | none => rfl
    | some b => simp [hf.map_min]

/-- Maximum commutes with a monotone map. -/
theorem listMax_map_mono (f : ℚ → ℚ) (hf : Monotone f) (l : List ℚ) :
    listMax (l.map f) = (listMax l).map f := by
  induction l with
  | nil => rfl
  | cons a t ih =>
    simp only [List.map_cons, listMax, ih]
    cases listMax t with
    | none => rfl
    | some b => simp [hf.map_max]

/-- Flattening commutes with mapping a function over every element. -/
theorem flat2_map (f : ℚ → ℚ) (m : List (List ℚ)) :
    flat2 (m.map (List.map f)) = (flat2 m).map f := by
  induction m with
  | nil => rfl
  | cons r t ih => simp [flat2, ih, List.map_append]

/-! ### Lemmas about `optionMapM` and `normalize` -/

/-- A successful effectful map has one result per input. -/
theorem optionMapM_length {α β : Type} (f : α → Option β) (l : List α)
    (res : List β) (h : optionMapM f l = some res) : res.length = l.length := by
  induction l generalizing res with
  | nil =>
    simp only [optionMapM] at h
    cases h
    rfl
  | cons a t ih =>
    simp only [optionMapM] at h
    cases hfa : f a with
    | none => rw [hfa] at h; simp at h
    | some b =>
      cases hmt : optionMapM f t with
      | none => rw [hfa, hmt] at h; simp at h
      | some bs =>
        rw [hfa, hmt] at h
        cases h
        simp [ih bs hmt]

/-- A successful effectful map acts pointwise. -/
theorem optionMapM_getD {α β : Type} (f : α → Option β) (l : List α)
    (res : List β) (h : optionMapM f l = some res) (i : ℕ) (hi : i < l.length)
    (d : α) (e : β) : f (l.getD i d) = some (res.getD i e) := by
  induction l generalizing res i with
  | nil => simp at hi
  | cons a t ih =>
    simp only [optionMapM] at h
    cases hfa : f a with
    | none => rw [hfa] at h; simp at h
    | some b =>
      cases hmt : optionMapM f t with
      | none => rw [hfa, hmt] at h; simp at h
      | some bs =>
        rw [hfa, hmt] at h
        cases h
        cases i with
        | zero => simpa using hfa
        | succ j =>
          have hj : j < t.length := by simpa using hi
          simpa using ih bs hmt j hj

/-- Unfolding equation of `normalizeSpec` on a nonempty spectrogram. -/
theorem normalizeSpec_eq (sp : List (List ℚ)) (mn mx : ℚ)
    (hmn : listMin (flat2 sp) = some mn) (hmx : listMax (flat2 sp) = some mx) :
    normalizeSpec sp =
      some ((mn, mx), sp.map (fun row => row.map (fun v => (v - mn) / (mx - mn)))) := by
  simp [normalizeSpec, hmn, hmx]

/-- Unfolding equation of `normalize` when the per-spectrogram loop
succeeds. -/
theorem normalize_unfold (s : AudioPreprocessor) (specs : List (List (List ℚ)))
    (results : List ((ℚ × ℚ) × List (List ℚ)))
    (hspec : s.spectrograms = some specs)
    (hres : optionMapM normalizeSpec specs = some results) :
    s.normalize = some { s with
        original_min_max := some (results.map Prod.fst),
        spectrograms := some (results.map Prod.snd) } := by
  simp [AudioPreprocessor.normalize, hspec, hres]

/-- A non-constant spectrogram has a strictly smaller minimum than maximum. -/
theorem nonconstant_min_lt_max (sp : List (List ℚ))
    (hnc : ¬ ∀ a ∈ flat2 sp, ∀ b ∈ flat2 sp, a = b) :
    ∃ mn mx, listMin (flat2 sp) = some mn ∧ listMax (flat2 sp) = some mx ∧
      mn < mx := by
  cases hmn : listMin (flat2 sp) with
  | none =>
    rw [listMin_eq_none_iff] at hmn
    exact absurd (by simp [hmn]) hnc
  | some mn =>
    cases hmx : listMax (flat2 sp) with
    | none =>
      rw [listMax_eq_none_iff] at hmx
      exact absurd (by simp [hmx]) hnc
    | some mx =>
      refine ⟨mn, mx, rfl, rfl, ?_⟩
      rcases lt_or_le mn mx with hlt | hle
      · exact hlt
      · exfalso
        apply hnc
        intro a ha b hb
        have h1 := listMin_le _ _ hmn a ha
        have h2 := listMax_ge _ _ hmx a ha
        have h3 := listMin_le _ _ hmn b hb
        have h4 := listMax_ge _ _ hmx b hb
        linarith

/-- The rescaling map of `normalize` is monotone when min < max. -/
theorem normScale_monotone (mn mx : ℚ) (h : mn < mx) :
    Monotone (fun v => (v - mn) / (mx - mn)) := by
  intro a b hab
  have hpos : 0 < mx - mn := sub_pos.mpr h
  exact (div_le_div_iff_of_pos_right hpos).mpr (sub_le_sub_right hab mn)

/-! ### Claims about `normalize` -/

/-- C4: after `normalize()`, every spectrogram that was not constant before
normalization has minimum element 0 and maximum element 1. -/
theorem normalize_min_zero_max_one (s s' : AudioPreprocessor)
    (specs : List (List (List ℚ))) (i : ℕ)
    (hspec : s.spectrograms = some specs)
    (hnorm : s.normalize = some s')
    (hi : i < specs.length)
    (hnc : ¬ ∀ a ∈ flat2 (specs.getD i []), ∀ b ∈ flat2 (specs.getD i []), a = b) :
    ∃ outs, s'.spectrograms = some outs ∧
      listMin (flat2 (outs.getD i [])) = some 0 ∧
      listMax (flat2 (outs.getD i [])) = some 1 := by
  rcases hres : optionMapM normalizeSpec specs with _ | results
  · simp [AudioPreprocessor.normalize, hspec, hres] at hnorm
  · rw [normalize_unfold s specs results hspec hres] at hnorm
    cases hnorm
    refine ⟨results.map Prod.snd, rfl, ?_⟩
    have hlen : results.length = specs.length := optionMapM_length _ _ _ hres
    have hig : normalizeSpec (specs.getD i []) = some (results.getD i ((0, 0), [])) :=
      optionMapM_getD _ _ _ hres i hi [] ((0, 0), [])
    obtain ⟨mn, mx, hmn, hmx, hlt⟩ := nonconstant_min_lt_max _ hnc
    rw [normalizeSpec_eq _ _ _ hmn hmx] at hig
    have hpair := Option.some.inj hig
    have hout : (results.map Prod.snd).getD i [] = (results.getD i ((0, 0), [])).2 :=
      getD_map_of_lt Prod.snd results i ((0, 0), []) [] (by rw [hlen]; exact hi)
    rw [hout, ← hpair]
    rw [flat2_map, listMin_map_mono _ (normScale_monotone mn mx hlt),
        listMax_map_mono _ (normScale_monotone mn mx hlt), hmn, hmx]
    have hne : mx - mn ≠ 0 := ne_of_gt (sub_pos.mpr hlt)
    constructor
    · simp
    · simp [div_self hne]

/-- C5: for every non-constant spectrogram, rescaling the output of
`normalize()` by `normalized * (max - min) + min` with the stored
`(min, max)` pair reproduces the pre-normalization spectrogram exactly. -/
theorem normalize_roundtrip (s s' : AudioPreprocessor)
    (specs : List (List (List ℚ))) (i : ℕ)
    (hspec : s.spectrograms = some specs)
    (hnorm : s.normalize = some s')
    (hi : i < specs.length)
    (hnc : ¬ ∀ a ∈ flat2 (specs.getD i []), ∀ b ∈ flat2 (specs.getD i []), a = b) :
    ∃ outs pairs, s'.spectrograms = some outs ∧ s'.original_min_max = some pairs ∧
      (outs.getD i []).map (List.map (fun v =>
          v * ((pairs.getD i (0, 0)).2 - (pairs.getD i (0, 0)).1) +
            (pairs.getD i (0, 0)).1)) = specs.getD i [] := by
  rcases hres : optionMapM normalizeSpec specs with _ | results
  · simp [AudioPreprocessor.normalize, hspec, hres] at hnorm
  · rw [normalize_unfold s specs results hspec hres] at hnorm
    cases hnorm
    refine ⟨results.map Prod.snd, results.map Prod.fst, rfl, rfl, ?_⟩
    have hlen : results.length = specs.length := optionMapM_length _ _ _ hres
    have hig : normalizeSpec (specs.getD i []) = some (results.getD i ((0, 0), [])) :=
      optionMapM_getD _ _ _ hres i hi [] ((0, 0), [])
    obtain ⟨mn, mx, hmn, hmx, hlt⟩ := nonconstant_min_lt_max _ hnc
    rw [normalizeSpec_eq _ _ _ hmn hmx] at hig
    have hpair := Option.some.inj hig
    have hout : (results.map Prod.snd).getD i [] = (results.getD i ((0, 0), [])).2 :=
      getD_map_of_lt Prod.snd results i ((0, 0), []) [] (by rw [hlen]; exact hi)
    have hfst : (results.map Prod.fst).getD i (0, 0) = (results.getD i ((0, 0), [])).1 :=
      getD_map_of_lt Prod.fst results i ((0, 0), []) (0, 0) (by rw [hlen]; exact hi)
    rw [hout, hfst, ← hpair]
    have hne : mx - mn ≠ 0 := ne_of_gt (sub_pos.mpr hlt)
    show ((specs.getD i []).map (fun row => row.map (fun v => (v - mn) / (mx - mn)))).map
        (List.map (fun v => v * (mx - mn) + mn)) = specs.getD i []
    rw [List.map_map]
    have hrow : ∀ row : List ℚ, (List.map (fun v => v * (mx - mn) + mn) ∘
        List.map (fun v => (v - mn) / (mx - mn))) row = row := by
      intro row
      simp only [Function.comp_apply, List.map_map]
      have hid : ((fun v => v * (mx - mn) + mn) ∘ fun v => (v - mn) / (mx - mn)) = id := by
        funext v
        simp only [Function.comp_apply, id_eq]
        field_simp
      rw [hid, List.map_id]
    calc List.map (List.map (fun v => v * (mx - mn) + mn) ∘
          List.map (fun v => (v - mn) / (mx - mn))) (specs.getD i [])
        = List.map id (specs.getD i []) := List.map_congr_left fun row h => hrow row
      _ = specs.getD i [] := List.map_id _

/-- C9: the denominator `max - min` of the unguarded division in the
`normalize()` loop is zero exactly on constant spectrograms, and the loop
body still runs the division and returns a result there (no guard, no
detection, no error); for non-constant spectrograms the denominator is
nonzero. -/
theorem normalize_denominator_zero_iff_constant (sp : List (List ℚ)) (mn mx : ℚ)
    (hmn : listMin (flat2 sp) = some mn) (hmx : listMax (flat2 sp) = some mx) :
    ((mx - mn = 0) ↔ ∀ a ∈ flat2 sp, ∀ b ∈ flat2 sp, a = b) ∧
    normalizeSpec sp = some ((mn, mx),
      sp.map (fun row => row.map (fun v => (v - mn) / (mx - mn)))) := by
  constructor
  · constructor
    · intro h0 a ha b hb
      have h1 := listMin_le _ _ hmn a ha
      have h2 := listMax_ge _ _ hmx a ha
      have h3 := listMin_le _ _ hmn b hb
      have h4 := listMax_ge _ _ hmx b hb
      linarith
    · intro hc
      have hmem1 := listMin_mem _ _ hmn
      have hmem2 := listMax_mem _ _ hmx
      have hme := hc mx hmem2 mn hmem1
      rw [hme, sub_self]
  · exact normalizeSpec_eq _ _ _ hmn hmx

/-! ### Concrete normalize run used by the checks -/

/-- Test state with one non-constant spectrogram. -/
def sB : AudioPreprocessor :=
  { AudioPreprocessor.init with
      spectrograms := some [[[1, 3], [2, 5]]] }

/-- The state produced by `sB.normalize` (min 1, max 5). -/
def sBnorm : AudioPreprocessor :=
  { AudioPreprocessor.init with
      spectrograms := some [[[0, 1/2], [1/4, 1]]],
      original_min_max := some [(1, 5)] }

/-- Evaluation of the concrete normalize run. -/
theorem sB_normalize_result : sB.normalize = some sBnorm := by
  with_unfolding_all decide

/-- Check of `normalize_min_zero_max_one` on the concrete run. -/
theorem normalize_min_zero_max_one_check :
    ∃ outs, sBnorm.spectrograms = some outs ∧
      listMin (flat2 (outs.getD 0 [])) = some 0 ∧
      listMax (flat2 (outs.getD 0 [])) = some 1 :=
  normalize_min_zero_max_one sB sBnorm [[[1, 3], [2, 5]]] 0 rfl sB_normalize_result
    (by decide) (by with_unfolding_all decide)

/-- Check of `normalize_roundtrip` on the concrete run. -/
theorem normalize_roundtrip_check :
    ∃ outs pairs, sBnorm.spectrograms = some outs ∧
      sBnorm.original_min_max = some pairs ∧
      (outs.getD 0 []).map (List.map (fun v =>
          v * ((pairs.getD 0 (0, 0)).2 - (pairs.getD 0 (0, 0)).1) +
            (pairs.getD 0 (0, 0)).1)) = List.getD [[[(1:ℚ), 3], [2, 5]]] 0 [] :=
  normalize_roundtrip sB sBnorm [[[1, 3], [2, 5]]] 0 rfl sB_normalize_result
    (by decide) (by with_unfolding_all decide)

/-- Check of `normalize_denominator_zero_iff_constant` on a constant
spectrogram: the denominator is zero and the division still happens. -/
theorem normalize_denominator_zero_iff_constant_check :
    (((2:ℚ) - 2 = 0) ↔ ∀ a ∈ flat2 [[(2:ℚ), 2], [2]],
        ∀ b ∈ flat2 [[(2:ℚ), 2], [2]], a = b) ∧
    normalizeSpec [[(2:ℚ), 2], [2]] = some ((2, 2),
      [[(2:ℚ), 2], [2]].map (fun row => row.map (fun v => (v - 2) / (2 - 2)))) :=
  normalize_denominator_zero_iff_constant [[2, 2], [2]] 2 2
    (by with_unfolding_all decide) (by with_unfolding_all decide)

/-! ### Cardinality invariant (C6) -/

/-- Unfolding equation of `log_spectrogram` when `signals` is set. -/
theorem log_spectrogram_unfold (s : AudioPreprocessor)
    (g : ℕ → ℕ → List ℚ → List (List ℚ)) (n m : ℕ) (sigs : List (List ℚ))
    (hsig : s.signals = some sigs) :
    s.log_spectrogram g n m = some { s with
      frame_size := some n,
      hop_length := some m,
      spectrograms := some (sigs.map (g n m)) } := by
  simp [AudioPreprocessor.log_spectrogram, hsig]

/-- Cardinality invariant: signals, spectrograms and min-max pairs are all
present, with one spectrogram and one pair per signal. -/
def batchInv (s : AudioPreprocessor) : Prop :=
  ∃ sigs specs pairs, s.signals = some sigs ∧ s.spectrograms = some specs ∧
    s.original_min_max = some pairs ∧
    specs.length = sigs.length ∧ pairs.length = sigs.length

/-- A successful `normalize` leaves one spectrogram and stores one pair per
signal. -/
theorem normalize_preserves_counts (s s' : AudioPreprocessor)
    (sigs : List (List ℚ)) (specs : List (List (List ℚ)))
    (hsig : s.signals = some sigs) (hspec : s.spectrograms = some specs)
    (hlen : specs.length = sigs.length) (hnorm : s.normalize = some s') :
    batchInv s' := by
  rcases hres : optionMapM normalizeSpec specs with _ | results
  · simp [AudioPreprocessor.normalize, hspec, hres] at hnorm
  · rw [normalize_unfold s specs results hspec hres] at hnorm
    cases hnorm
    have h1 : results.length = specs.length := optionMapM_length _ _ _ hres
    exact ⟨sigs, results.map Prod.snd, results.map Prod.fst, hsig, rfl, rfl,
      by simp [h1, hlen], by simp [h1, hlen]⟩

/-- C6: after `log_spectrogram()` the spectrogram count equals the signal
count; after `normalize()` the stored pair count equals both; and each of
the subsequent pipeline operations (`pad`, `log_spectrogram`, `normalize`)
preserves this cardinality equality. -/
theorem pipeline_cardinality_invariant :
    (∀ (s s' : AudioPreprocessor) (g : ℕ → ℕ → List ℚ → List (List ℚ)) (n m : ℕ)
        (sigs : List (List ℚ)), s.signals = some sigs →
        s.log_spectrogram g n m = some s' →
        s'.signals = some sigs ∧
          ∃ specs, s'.spectrograms = some specs ∧ specs.length = sigs.length) ∧
    (∀ (s s' : AudioPreprocessor) (sigs : List (List ℚ))
        (specs : List (List (List ℚ))),
        s.signals = some sigs → s.spectrograms = some specs →
        specs.length = sigs.length → s.normalize = some s' → batchInv s') ∧
    (∀ (s s' : AudioPreprocessor) (d : ℚ),
        batchInv s → s.pad d = some s' → batchInv s') ∧
    (∀ (s s' : AudioPreprocessor) (g : ℕ → ℕ → List ℚ → List (List ℚ)) (n m : ℕ),
        batchInv s → s.log_spectrogram g n m = some s' → batchInv s') ∧
    (∀ (s s' : AudioPreprocessor),
        batchInv s → s.normalize = some s' → batchInv s') := by
  refine ⟨?_, ?_, ?_, ?_, ?_⟩
  · intro s s' g n m sigs hsig hlog
    rw [log_spectrogram_unfold s g n m sigs hsig] at hlog
    cases hlog
    exact ⟨hsig, sigs.map (g n m), rfl, by simp⟩
  · intro s s' sigs specs hsig hspec hlen hnorm
    exact normalize_preserves_counts s s' sigs specs hsig hspec hlen hnorm
  · intro s s' d hinv hpad
    obtain ⟨sigs, specs, pairs, hsig, hspec, hpm, hl1, hl2⟩ := hinv
    cases hsr : s.sample_rate with
    | none => simp [AudioPreprocessor.pad, hsr] at hpad
    | some sr =>
      rw [pad_eq s sr d sigs hsr hsig] at hpad
      cases hpad
      exact ⟨sigs.map (padSignal (pyInt (sr * d))), specs, pairs, rfl, hspec, hpm,
        by simp [hl1], by simp [hl2]⟩
  · intro s s' g n m hinv hlog
    obtain ⟨sigs, specs, pairs, hsig, hspec, hpm, hl1, hl2⟩ := hinv
    rw [log_spectrogram_unfold s g n m sigs hsig] at hlog
    cases hlog
    exact ⟨sigs, sigs.map (g n m), pairs, hsig, rfl, hpm, by simp, by simp [hl2]⟩
  · intro s s' hinv hnorm
    obtain ⟨sigs, specs, pairs, hsig, hspec, hpm, hl1, hl2⟩ := hinv
    exact normalize_preserves_counts s s' sigs specs hsig hspec hl1 hnorm

/-- Test state with all three artifacts present, one entry each. -/
def sC : AudioPreprocessor :=
  { AudioPreprocessor.init with
      sample_rate := some 4,
      signals := some [[1, 2]],
      spectrograms := some [[[1, 3]]],
      original_min_max := some [(1, 3)] }

/-- The state produced by `sC.pad 1`. -/
def sCpad : AudioPreprocessor :=
  { sC with
      signal_length := some 4,
      signals := some [[0, 0, 1, 2]] }

/-- Check of `pipeline_cardinality_invariant` on a concrete `pad` call:
the cardinality equality is preserved. -/
theorem pipeline_cardinality_invariant_check : batchInv sCpad :=
  pipeline_cardinality_invariant.2.2.1 sC sCpad 1
    ⟨[[1, 2]], [[[1, 3]]], [(1, 3)], rfl, rfl, rfl, rfl, rfl⟩
    (by with_unfolding_all decide)

/-! ### Claims about `load` and `save` -/

/-- C7: after `load()`, the signal batch has exactly one waveform per
directory entry whose name does not begin with a dot; an empty directory
gives an empty batch. -/
theorem load_counts_non_hidden_entries (s : AudioPreprocessor)
    (entries : List String) (decode : String → List ℚ) (sr : ℚ) :
    ∃ sigs, (s.load entries decode sr).signals = some sigs ∧
      sigs.length = entries.countP (fun file => !(isHidden file)) ∧
      (entries = [] → sigs = []) := by
  refine ⟨(entries.filter (fun file => !(isHidden file))).map decode, rfl, ?_, ?_⟩
  · simp [List.countP_eq_length_filter]
  · intro h
    subst h
    rfl

/-- Regular file name used by the load check. -/
def fileA : String := "a.wav"

/-- Hidden file name used by the load check. -/
def fileHidden : String := ".DS_Store"

/-- Second regular file name used by the load check. -/
def fileB : String := "b.wav"

/-- Check of `load_counts_non_hidden_entries` on a directory of two regular
files and one hidden file. -/
theorem load_counts_non_hidden_entries_check :
    ∃ sigs, (AudioPreprocessor.init.load [fileA, fileHidden, fileB]
        (fun _ => ([] : List ℚ)) 1).signals = some sigs ∧
      sigs.length = List.countP (fun file => !(isHidden file))
        [fileA, fileHidden, fileB] ∧
      ([fileA, fileHidden, fileB] = ([] : List String) → sigs = []) :=
  load_counts_non_hidden_entries AudioPreprocessor.init [fileA, fileHidden, fileB]
    (fun _ => ([] : List ℚ)) 1

/-- C8: calling `save(path)` when `path` already exists fails on the
directory creation and writes nothing: the error propagates before any
`np.save`, leaving the filesystem exactly as it was. -/
theorem save_fails_on_existing_path (s : AudioPreprocessor) (path : String)
    (fs : FileSys) (h : path ∈ fs) :
    s.save path fs = Except.error fs := by
  simp [AudioPreprocessor.save, osMkdir, h]

/-- Output directory name used by the save check. -/
def outDir : String := "out"

/-- Check of `save_fails_on_existing_path`: saving onto an existing path
errors out with the filesystem unchanged. -/
theorem save_fails_on_existing_path_check :
    AudioPreprocessor.init.save outDir [outDir] = Except.error [outDir] :=
  save_fails_on_existing_path AudioPreprocessor.init outDir [outDir]
    (List.mem_cons_self outDir [])
